import Mathlib

/-!
Shallow embedding of the puffer repository: `src/util/file_descriptor.cc`
(the `FileDescriptor` resource wrapper) and `src/media-server/run_servers.cc`
(the orchestrator's worker-spawning loop and `retrieve_expt_id`), together
with theorems settling the behavioural claims about them.

Modelling conventions:
- C++ exceptions are `Except Err`; the `runtime_error` messages of the source
  are mapped onto the spec's error taxonomy (`SystemCallError`, `LogicError`,
  `IOError` for "write returned 0", `UnexpectedEOF`).
- The underlying OS resource of a descriptor is a byte queue: `data` is the
  full sequence of bytes the resource holds (writes append at the end), and
  `pos` is the current offset / read cursor.  An OS `read` of `n` bytes
  returns `min n available` bytes (the deterministic regular-file behaviour);
  an OS `write` of `n` bytes accepts `min (sched k) n` bytes, where the
  schedule `sched` models the OS's choice of short writes (`sched k = 0`
  models the "write returned 0" stall).  OS-level failures of `read`, `write`
  and `close` (a `CheckSystemCall` throw) abort the whole operation by
  exception and are not given a schedule of their own: every claim below is
  about runs in which the system calls themselves succeed.
- Calls into attached multiplexers (`Epoller::deregister`) and warnings
  printed to `cerr` are recorded in an event trace, since `epoller.cc` is
  outside the embedded sources and the claims are about *whether* those calls
  happen and in which order.
-/

namespace Puffer

/-- Error taxonomy of the spec, tagging the `throw` sites of the source:
`CheckSystemCall` failures are `systemCallError`; "nothing to write" is
`logicError`; "write returned 0" is `ioError`; "read_exactly: reached EOF
before reaching target" is `unexpectedEOF`. -/
inductive Err
  | systemCallError
  | logicError
  | ioError
  | unexpectedEOF
deriving DecidableEq

/-- Observable external effects of `FileDescriptor` lifecycle operations:
`dereg k` records a call `epoller->deregister(*this)` on the epoller whose
handle is `k`; `closeHandle fd` records the OS-level `::close(fd)`; `warn`
records a non-fatal warning printed to `cerr`. -/
inductive Event
  | dereg (epollerFd : Int)
  | closeHandle (fd : Int)
  | warn
deriving DecidableEq

/-- Recognizer for deregistration events. -/
def isDereg : Event → Bool
  | .dereg _ => true
  | _ => false

/-- Modelled from the spec: the "fixed buffer capacity" of `read` (the
`BUFFER_SIZE` constant lives in `file_descriptor.hh`, which is not among the
given sources).  Its exact value is immaterial to every claim; only
`0 < BUFFER_SIZE` is ever used. -/
def BUFFER_SIZE : Nat := 1048576

/-- State of a `FileDescriptor` together with the OS resource behind it.
`fd_`, `eof_`, `read_count_`, `write_count_` and `epollers_` mirror the data
members of the class (`epollers_` maps an epoller's fd to the liveness of the
stored `weak_ptr`, i.e. whether `lock()` succeeds).  `data`/`pos` model the
OS resource as a byte queue (see the file header).  The byte counters are
modelled from the spec ("cumulative bytes read/written"); `register_read` /
`register_write` live in the header, which is not among the given sources. -/
structure FileDescriptor where
  fd_ : Int := 0
  eof_ : Bool := false
  read_count_ : Nat := 0
  write_count_ : Nat := 0
  epollers_ : List (Int × Bool) := []
  data : List Nat := []
  pos : Nat := 0
deriving DecidableEq

/-- Models `FileDescriptor::close` (file_descriptor.cc lines 41-58): no-op if
the handle is already invalid; otherwise deregister from every still-live
back-referenced epoller, then release the OS handle and mark the descriptor
invalid.  The OS-level `::close` is modelled as succeeding (a failure would
raise `systemCallError` before `fd_` is cleared; the claims below concern the
successful path, and the destructor catches that exception). -/
def close (st : FileDescriptor) : FileDescriptor × List Event :=
  if st.fd_ < 0 then (st, [])
  else ({ st with fd_ := -1 },
        (st.epollers_.filterMap fun p => if p.2 then some (Event.dereg p.1) else none)
          ++ [Event.closeHandle st.fd_])

/-- Models `FileDescriptor::attach_epoller` (lines 191-199): `emplace` the
epoller under its fd; if the key already exists, the map is unchanged and a
warning is printed. -/
def attach_epoller (st : FileDescriptor) (epollerFd : Int) : FileDescriptor × List Event :=
  if st.epollers_.any fun p => p.1 == epollerFd then (st, [Event.warn])
  else ({ st with epollers_ := st.epollers_ ++ [(epollerFd, true)] }, [])

/-- Models `FileDescriptor::detach_epoller` (lines 201-207): `erase` the
entry keyed by `epollerFd`; if `erase` removed nothing, print a warning.
Note that the source performs no call into the epoller here. -/
def detach_epoller (st : FileDescriptor) (epollerFd : Int) : FileDescriptor × List Event :=
  let erased := st.epollers_.filter fun p => p.1 != epollerFd
  if erased.length = st.epollers_.length
  then ({ st with epollers_ := erased }, [Event.warn])
  else ({ st with epollers_ := erased }, [])

/-- Models `FileDescriptor::read` (lines 89-101): one OS read of up to
`min BUFFER_SIZE limit` bytes; sets `eof_` when zero bytes come back; returns
the bytes obtained. -/
def read (st : FileDescriptor) (limit : Nat) : FileDescriptor × List Nat :=
  let chunk := (st.data.drop st.pos).take (min BUFFER_SIZE limit)
  ({ st with pos := st.pos + chunk.length,
             eof_ := if chunk.length = 0 then true else st.eof_,
             read_count_ := st.read_count_ + chunk.length }, chunk)

/-- Driver for the round-trip claim: call `read limit` repeatedly until the
end-of-file flag is set, collecting all bytes obtained. -/
def readToEof (st : FileDescriptor) (limit : Nat) : FileDescriptor × List Nat :=
  if h : st.eof_ then (st, [])
  else ((readToEof (read st limit).1 limit).1,
        (read st limit).2 ++ (readToEof (read st limit).1 limit).2)
termination_by (st.data.length - st.pos) + (if st.eof_ then 0 else 1)
decreasing_by
  simp only [read, List.length_take, List.length_drop]
  rcases Nat.eq_zero_or_pos (min (min BUFFER_SIZE limit) (st.data.length - st.pos)) with
    hc | hc
  · rw [hc]
    simp [h]
  · rw [if_neg (Nat.pos_iff_ne_zero.mp hc), if_neg h]
    omega

/-- Models the do-while loop of `FileDescriptor::write(buffer, write_all)`
(lines 104-113) with the body of `write(begin, end)` (lines 71-86) inlined:
`i` is the iterator position in `S`, `k` counts the OS writes issued, and
`sched k` is the number of bytes the k-th OS write accepts (clamped to the
number requested).  "begin >= end" throws `logicError`; an OS write accepting
zero bytes throws `ioError`; each successful OS write appends the accepted
bytes to the resource and advances the iterator. -/
def write_go (S : List Nat) (write_all : Bool) (sched : Nat → Nat)
    (st : FileDescriptor) (i k : Nat) : Except Err (FileDescriptor × Nat) :=
  if h : S.length ≤ i then .error .logicError
  else if hbw : min (sched k) (S.length - i) = 0 then .error .ioError
  else if write_all ∧ i + min (sched k) (S.length - i) ≠ S.length then
    write_go S write_all sched
      { st with data := st.data ++ (S.drop i).take (min (sched k) (S.length - i)),
                write_count_ := st.write_count_ + min (sched k) (S.length - i) }
      (i + min (sched k) (S.length - i)) (k + 1)
  else .ok ({ st with data := st.data ++ (S.drop i).take (min (sched k) (S.length - i)),
                      write_count_ := st.write_count_ + min (sched k) (S.length - i) },
            i + min (sched k) (S.length - i))
termination_by S.length - i
decreasing_by omega

/-- Models `FileDescriptor::write(buffer, write_all)` (lines 104-113): run the
do-while loop from the start of `S`; on success, return the final state and
the iterator position reached. -/
def write (st : FileDescriptor) (S : List Nat) (write_all : Bool)
    (sched : Nat → Nat) : Except Err (FileDescriptor × Nat) :=
  write_go S write_all sched st 0 0

/-- Loop of `FileDescriptor::read_exactly` (lines 115-134): while fewer than
`len` bytes are accumulated in `ret`, `read` the remaining number of bytes and
append; after each read, if the end-of-file flag is set, return the partial
result when `fail_silently`, else throw `unexpectedEOF`. -/
def read_exactly_go (len : Nat) (fail_silently : Bool)
    (st : FileDescriptor) (ret : List Nat) : Except Err (FileDescriptor × List Nat) :=
  if h : ret.length < len then
    if he : (read st (len - ret.length)).1.eof_ then
      if fail_silently then .ok ((read st (len - ret.length)).1, ret ++ (read st (len - ret.length)).2)
      else .error .unexpectedEOF
    else read_exactly_go len fail_silently (read st (len - ret.length)).1
      (ret ++ (read st (len - ret.length)).2)
  else .ok (st, ret)
termination_by len - ret.length
decreasing_by
  simp only [read, List.length_take, List.length_drop] at he ⊢
  by_cases hc : min (min BUFFER_SIZE (len - ret.length)) (st.data.length - st.pos) = 0
  · rw [if_pos hc] at he
    exact absurd rfl he
  · simp only [List.length_append, List.length_take, List.length_drop]
    omega

/-- Models `FileDescriptor::read_exactly` (lines 115-134). -/
def read_exactly (st : FileDescriptor) (len : Nat) (fail_silently : Bool) :
    Except Err (FileDescriptor × List Nat) :=
  read_exactly_go len fail_silently st []

/-- The whence constant SEEK_SET. -/
def SEEK_SET : Nat := 0

/-- The whence constant SEEK_CUR. -/
def SEEK_CUR : Nat := 1

/-- The whence constant SEEK_END. -/
def SEEK_END : Nat := 2

/-- Models `FileDescriptor::seek` (lines 159-162): `lseek(fd, offset, whence)`
computes the new offset relative to the start, the current offset, or the end
of the resource; a negative resulting offset makes `lseek` fail, which
`CheckSystemCall` turns into an exception. -/
def seek (st : FileDescriptor) (offset : Int) (whence : Nat) :
    Except Err (FileDescriptor × Nat) :=
  let base : Int := if whence = SEEK_SET then 0
                    else if whence = SEEK_CUR then (st.pos : Int)
                    else (st.data.length : Int)
  let target : Int := base + offset
  if target < 0 then .error .systemCallError
  else .ok ({ st with pos := target.toNat }, target.toNat)

/-- Models `FileDescriptor::curr_offset` (lines 164-167): `seek(0, SEEK_CUR)`. -/
def curr_offset (st : FileDescriptor) : Except Err (FileDescriptor × Nat) :=
  seek st 0 SEEK_CUR

/-- Models `FileDescriptor::filesize` (lines 174-183): remember the current
offset, seek to the end to learn the size, seek back, return the size. -/
def filesize (st : FileDescriptor) : Except Err (FileDescriptor × Nat) :=
  match curr_offset st with
  | .error e => .error e
  | .ok (st1, prev_offset) =>
    match seek st1 0 SEEK_END with
    | .error e => .error e
    | .ok (st2, fsize) =>
      match seek st2 (prev_offset : Int) SEEK_SET with
      | .error e => .error e
      | .ok (st3, _) => .ok (st3, fsize)

/-- Models `FileDescriptor::reset` (lines 185-189): seek to the start and
clear the end-of-file flag. -/
def reset (st : FileDescriptor) : Except Err FileDescriptor :=
  match seek st 0 SEEK_SET with
  | .error e => .error e
  | .ok (st1, _) => .ok { st1 with eof_ := false }

/-! Orchestrator model: the worker-spawning loop of `run_servers.cc::main`
(lines 137-193).  External collaborators are oracles: `jsonOf` models
`run(expt_json.py, fingerprint)` (fingerprint to canonical JSON string) and
`retrieve` models the value `retrieve_expt_id` returns for that JSON string.
Each `run_as_child` call registers one tracked child process; the trace
records each such call, tagged by which call site issued it. -/

/-- One argument of a spawned worker's argv: either a literal string from the
source or the `to_string` of an integer (`to_string` is injective, so the
integer is kept). -/
inductive Arg
  | str (s : String)
  | int (i : Int)
deriving DecidableEq

/-- One `run_as_child` call, tagged by the call site that issued it: the
media-server spawn at run_servers.cc line 158, or the log-reporter spawn at
line 181. -/
inductive Spawn
  | media (path : String) (args : List Arg)
  | logReporter (path : String) (args : List Arg)
deriving DecidableEq

/-- The `log_stems` vector (run_servers.cc lines 129-131). -/
def log_stems : List String :=
  ["active_streams", "rebuffer_events", "client_buffer", "client_sysinfo",
   "video_sent", "video_acked"]

/-- One entry of the YAML `experiments` list: its fingerprint (kept as the
string the source streams out of the YAML node) and its `num_servers`. -/
structure Experiment where
  fingerprint : String
  num_servers : Nat
deriving DecidableEq

/-- The orchestrator's ambient configuration: the resolved worker paths, the
absolute YAML configuration path, the log directory, and `enable_logging`. -/
structure OrchConfig where
  ws_media_server : String
  log_reporter : String
  yaml_config : String
  log_dir : String
  enable_logging : Bool
deriving DecidableEq

/-- The log-reporter spawns issued for one media server (run_servers.cc lines
170-191): only when logging is enabled (`influxdb_client` non-null), one
spawn per log stem, with argv (reporter path, config path, format path,
output path). -/
def logReporterSpawns (cfg : OrchConfig) (server_id : Nat) : List Spawn :=
  if cfg.enable_logging then
    log_stems.map fun stem =>
      Spawn.logReporter cfg.log_reporter
        [Arg.str cfg.log_reporter, Arg.str cfg.yaml_config,
         Arg.str (cfg.log_dir ++ "/" ++ stem ++ ".conf"),
         Arg.str (cfg.log_dir ++ "/" ++ stem ++ "." ++ toString server_id ++ ".log")]
  else []

/-- The inner loop of `main` (run_servers.cc lines 153-192): for each of `n`
servers of one experiment, increment `server_id`, spawn one media server with
argv (its own path, the config path, `to_string(server_id)`,
`to_string(expt_id)`), then spawn the log reporters.  Returns the final
`server_id` and the spawn trace. -/
def serversLoop (cfg : OrchConfig) (expt_id : Int) (server_id : Nat) :
    Nat → Nat × List Spawn
  | 0 => (server_id, [])
  | n + 1 =>
    let sid := server_id + 1
    let mediaCall := Spawn.media cfg.ws_media_server
      [Arg.str cfg.ws_media_server, Arg.str cfg.yaml_config,
       Arg.int (Int.ofNat sid), Arg.int expt_id]
    let rest := serversLoop cfg expt_id sid n
    (rest.1, mediaCall :: (logReporterSpawns cfg sid ++ rest.2))

/-- The outer loop of `main` (run_servers.cc lines 138-193): for each
experiment, obtain its JSON string and experiment id, then run the inner
loop; `server_id` carries over between experiments. -/
def exptsLoop (cfg : OrchConfig) (retrieve : String → Int) (jsonOf : String → String)
    (server_id : Nat) : List Experiment → Nat × List Spawn
  | [] => (server_id, [])
  | e :: es =>
    let expt_id := retrieve (jsonOf e.fingerprint)
    let p := serversLoop cfg expt_id server_id e.num_servers
    let q := exptsLoop cfg retrieve jsonOf p.1 es
    (q.1, p.2 ++ q.2)

/-- The whole spawn trace of `main`, starting from `server_id = 0`
(run_servers.cc line 137). -/
def run_servers (cfg : OrchConfig) (retrieve : String → Int)
    (jsonOf : String → String) (expts : List Experiment) : List Spawn :=
  (exptsLoop cfg retrieve jsonOf 0 expts).2

/-- The media-server spawns of a trace, in order: (path, argv) of every spawn
issued by the media-server call site. -/
def mediaCallsOf : List Spawn → List (String × List Arg)
  | [] => []
  | .media p a :: rest => (p, a) :: mediaCallsOf rest
  | .logReporter _ _ :: rest => mediaCallsOf rest

/-- The integer carried at position `i` of an argv (0 if that position is not
an integer argument). -/
def argIdAt (args : List Arg) (i : Nat) : Int :=
  match args.drop i with
  | Arg.int v :: _ => v
  | _ => 0

/-- The server ids of all media-server spawns of a trace, in spawn order. -/
def mediaServerIds (l : List Spawn) : List Int :=
  (mediaCallsOf l).map fun c => argIdAt c.2 2

/-- Total number of media servers a configuration asks for. -/
def totalServers (expts : List Experiment) : Nat :=
  (expts.map Experiment.num_servers).sum

/-! Model of `retrieve_expt_id` (run_servers.cc lines 42-86).  The external
calls (SHA-256, PostgreSQL connection, the CREATE TABLE transaction, the two
`prepare`s, the two prepared statements and the final commit) are oracles: a
`Bool`/`Option` field says whether each call returns or throws, and what rows
the database sends back. -/

/-- Oracle for one run of `retrieve_expt_id`: whether each external call
succeeds, and the result rows of the two prepared statements (`none` means
the `exec` threw; `some rows` is the result set, one `List Int` per row). -/
structure DBOracle where
  hashOk : Bool
  connOk : Bool
  createOk : Bool
  prepareOk : Bool
  selectRes : Option (List (List Int))
  insertRes : Option (List (List Int))
  insertCommitOk : Bool
deriving DecidableEq

/-- The check `r.size() == 1 and r[0].size() == 1` with the value `r[0][0]`:
`some v` iff the result set is exactly one row of exactly one column. -/
def rowsHit : List (List Int) → Option Int
  | [[v]] => some v
  | _ => none

/-- Models `retrieve_expt_id` (run_servers.cc lines 42-86): the try block as
an `Except` computation (`.error` at the point where the corresponding C++
call throws), with the catch clause mapping every exception to `-1`; the
fall-through `return -1` after a shapeless insert result is the `.ok (-1)`
case. -/
def retrieve_expt_id (o : DBOracle) : Int :=
  let body : Except Unit Int :=
    if !o.hashOk then .error () else
    if !o.connOk then .error () else
    if !o.createOk then .error () else
    if !o.prepareOk then .error () else
    match o.selectRes with
    | none => .error ()
    | some r =>
      match rowsHit r with
      | some v => .ok v
      | none =>
        match o.insertRes with
        | none => .error ()
        | some r2 =>
          if !o.insertCommitOk then .error ()
          else match rowsHit r2 with
               | some v => .ok v
               | none => .ok (-1)
  match body with
  | .ok v => v
  | .error _ => -1

/-- The run reached the "same hash already exists" return: every external
call up to the select succeeded and the select produced exactly one
one-column row. -/
def selectFound (o : DBOracle) : Prop :=
  o.hashOk ∧ o.connOk ∧ o.createOk ∧ o.prepareOk ∧
  ∃ r v, o.selectRes = some r ∧ rowsHit r = some v

/-- The run reached the "return the ID of inserted row" return: the select
missed, and the insert plus its commit succeeded with exactly one one-column
row. -/
def insertReturned (o : DBOracle) : Prop :=
  o.hashOk ∧ o.connOk ∧ o.createOk ∧ o.prepareOk ∧
  ∃ r r2 v, o.selectRes = some r ∧ rowsHit r = none ∧
    o.insertRes = some r2 ∧ o.insertCommitOk ∧ rowsHit r2 = some v

/-! Helper lemmas about lists, shared by the loop proofs below. -/

/-- Taking more than the length takes everything: `take m` equals taking
`min m length`. -/
theorem take_eq_take_min (l : List Nat) (m : Nat) :
    l.take m = l.take (min m l.length) := by
  rcases Nat.le_total m l.length with h | h
  · rw [Nat.min_eq_left h]
  · rw [Nat.min_eq_right h, List.take_of_length_le h,
        List.take_of_length_le (le_refl _)]

/-- A taken chunk followed by dropping the chunk's length restores the list. -/
theorem take_append_drop_min (l : List Nat) (m : Nat) :
    l.take m ++ l.drop (min m l.length) = l := by
  rw [take_eq_take_min]
  exact List.take_append_drop _ l

/-! Loop lemmas for `write` and the read drivers. -/

/-- The do-while write loop with `write_all = true`, started strictly inside
`S` and driven by a schedule on which every OS write accepts at least one
byte, terminates successfully at the end iterator, having appended exactly
`S.drop i` to the resource; no other observable descriptor field changes. -/
theorem write_go_consumes_all (sched : Nat → Nat) (hs : ∀ j, 0 < sched j) :
    ∀ (fuel : Nat) (S : List Nat) (st : FileDescriptor) (i k : Nat),
      i < S.length → S.length - i ≤ fuel →
      ∃ st', write_go S true sched st i k = .ok (st', S.length)
        ∧ st'.data = st.data ++ S.drop i
        ∧ st'.pos = st.pos ∧ st'.eof_ = st.eof_ ∧ st'.fd_ = st.fd_
        ∧ st'.epollers_ = st.epollers_ := by
  intro fuel
  induction fuel with
  | zero => intro S st i k hi hf; omega
  | succ f ih =>
    intro S st i k hi hf
    rw [write_go]
    rw [dif_neg (by omega : ¬ S.length ≤ i)]
    have hbwpos : 0 < min (sched k) (S.length - i) := by
      have := hs k
      omega
    rw [dif_neg (by omega : ¬ min (sched k) (S.length - i) = 0)]
    by_cases hdone : i + min (sched k) (S.length - i) = S.length
    · rw [if_neg (by simp [hdone])]
      rw [hdone]
      have htake : (S.drop i).take (min (sched k) (S.length - i)) = S.drop i := by
        apply List.take_of_length_le
        simp only [List.length_drop]
        omega
      rw [htake]
      exact ⟨_, rfl, rfl, rfl, rfl, rfl, rfl⟩
    · rw [if_pos ⟨rfl, hdone⟩]
      have hle : min (sched k) (S.length - i) ≤ S.length - i := Nat.min_le_right _ _
      obtain ⟨st', heq, hdata, hpos, heof, hfd, hep⟩ :=
        ih S { st with data := st.data ++ (S.drop i).take (min (sched k) (S.length - i)),
                       write_count_ := st.write_count_ + min (sched k) (S.length - i) }
          (i + min (sched k) (S.length - i)) (k + 1) (by omega) (by omega)
      refine ⟨st', heq, ?_, hpos, heof, hfd, hep⟩
      rw [hdata]
      have hdrop : S.drop (i + min (sched k) (S.length - i)) =
          (S.drop i).drop (min (sched k) (S.length - i)) := by
        rw [List.drop_drop, Nat.add_comm]
      have htake2 : (S.drop i).take (min (sched k) (S.length - i)) =
          (S.drop i).take (min (min (sched k) (S.length - i)) (S.drop i).length) := by
        rw [List.length_drop, Nat.min_eq_left hle]
      simp only [List.append_assoc]
      rw [hdrop, ← List.take_append_drop (min (sched k) (S.length - i)) (S.drop i)]
      simp

/-- Reading in a loop from a descriptor whose end-of-file flag is already set
returns nothing and changes nothing. -/
theorem readToEof_of_eof (st : FileDescriptor) (limit : Nat)
    (h : st.eof_ = true) : readToEof st limit = (st, []) := by
  rw [readToEof]
  simp [h]

/-- Reading in a loop with a positive limit from a descriptor whose
end-of-file flag is clear drains and returns exactly the unread suffix of the
resource. -/
theorem readToEof_drains (limit : Nat) (hlimit : 0 < limit) :
    ∀ (fuel : Nat) (st : FileDescriptor),
      st.data.length - st.pos ≤ fuel → st.eof_ = false →
      (readToEof st limit).2 = st.data.drop st.pos := by
  intro fuel
  induction fuel with
  | zero =>
    intro st hf he
    have hdrop : st.data.drop st.pos = [] := List.drop_eq_nil_of_le (by omega)
    rw [readToEof]
    rw [dif_neg (by simp [he])]
    rw [readToEof_of_eof _ _ (by simp [read, hdrop])]
    simp [read, hdrop]
  | succ f ih =>
    intro st hf he
    by_cases hz : st.data.length - st.pos = 0
    · have hdrop : st.data.drop st.pos = [] := List.drop_eq_nil_of_le (by omega)
      rw [readToEof]
      rw [dif_neg (by simp [he])]
      rw [readToEof_of_eof _ _ (by simp [read, hdrop])]
      simp [read, hdrop]
    · have hcpos : 0 < min (min BUFFER_SIZE limit) (st.data.length - st.pos) := by
        have hb : 0 < BUFFER_SIZE := by decide
        omega
      have hclen : ((st.data.drop st.pos).take (min BUFFER_SIZE limit)).length =
          min (min BUFFER_SIZE limit) (st.data.length - st.pos) := by
        simp [List.length_take, List.length_drop]
      rw [readToEof]
      rw [dif_neg (by simp [he])]
      have heof1 : (read st limit).1.eof_ = false := by
        simp only [read, hclen]
        rw [if_neg (by omega)]
        exact he
      have hrec := ih (read st limit).1
        (by simp only [read, hclen]; omega)
        heof1
      simp only [read] at hrec ⊢
      rw [hrec]
      have hdd : st.data.drop (st.pos +
            ((st.data.drop st.pos).take (min BUFFER_SIZE limit)).length) =
          (st.data.drop st.pos).drop
            (((st.data.drop st.pos).take (min BUFFER_SIZE limit)).length) := by
        rw [List.drop_drop, Nat.add_comm]
      rw [hdd, hclen]
      have happ := take_append_drop_min (st.data.drop st.pos) (min BUFFER_SIZE limit)
      rw [List.length_drop] at happ
      exact happ

/-! Claim C1: the write/read round trip. -/

/-- Counterexample to claim C1 as stated ("for every byte sequence S"): for
the empty byte sequence, `write(S, writeAll = true)` does not consume the
input and no reads follow — the do-while loop runs its body once on an empty
range and throws `LogicError` ("nothing to write"). -/
theorem write_empty_input_fails :
    write {} [] true (fun _ => 1) = .error .logicError := by
  rw [write, write_go]
  rfl

/-- Claim C1 (amended to nonempty S): for every nonempty byte sequence `S`,
writing `S` with `writeAll = true` to a descriptor whose unread data is
exhausted (`pos` at the end of the resource, end-of-file flag clear) and
whose OS accepts at least one byte per write, then reading repeatedly (with
any positive limit) until the end-of-file flag is set, consumes the entire
input and yields back exactly `S`. -/
theorem write_all_roundtrip (st : FileDescriptor) (S : List Nat)
    (sched : Nat → Nat) (limit : Nat)
    (hS : S ≠ []) (hpos : st.pos = st.data.length) (heof : st.eof_ = false)
    (hsched : ∀ j, 0 < sched j) (hlimit : 0 < limit) :
    ∃ st1, write st S true sched = .ok (st1, S.length)
      ∧ (readToEof st1 limit).2 = S := by
  have hi : 0 < S.length := List.length_pos.mpr hS
  obtain ⟨st1, heq, hdata, hpos1, heof1, _, _⟩ :=
    write_go_consumes_all sched hsched S.length S st 0 0 hi (le_refl _)
  refine ⟨st1, heq, ?_⟩
  rw [readToEof_drains limit hlimit st1.data.length st1 (Nat.sub_le _ _)
      (by rw [heof1]; exact heof)]
  rw [hdata, hpos1, hpos, List.drop_zero]
  exact List.drop_left st.data S

/-- Witness for C1: writing [7, 8, 9] to a fresh descriptor with an OS that
accepts two bytes per write, then reading back with limit 2. -/
theorem write_all_roundtrip_witness :
    ∃ st1, write {} [7, 8, 9] true (fun _ => 2) = .ok (st1, 3)
      ∧ (readToEof st1 2).2 = [7, 8, 9] :=
  write_all_roundtrip {} [7, 8, 9] (fun _ => 2) 2 (by decide) rfl rfl
    (fun j => Nat.succ_pos 1) (by decide)

/-! Claim C2: `read_exactly` against a short source. -/

/-- One iteration of the `read_exactly` loop at an exhausted source: the read
obtains zero bytes, the end-of-file flag is set, and the loop stops with the
accumulator (`fail_silently`) or throws `unexpectedEOF`. -/
theorem read_exactly_go_at_end (n : Nat) (st : FileDescriptor) (ret : List Nat)
    (hz : st.data.length ≤ st.pos) (hlt : ret.length < n) :
    read_exactly_go n false st ret = .error .unexpectedEOF
    ∧ read_exactly_go n true st ret = .ok ((read st (n - ret.length)).1, ret) := by
  have hdrop : st.data.drop st.pos = [] := List.drop_eq_nil_of_le hz
  have heof1 : (read st (n - ret.length)).1.eof_ = true := by
    simp [read, hdrop]
  constructor
  · rw [read_exactly_go, dif_pos hlt, dif_pos heof1]
    rfl
  · rw [read_exactly_go, dif_pos hlt, dif_pos heof1]
    simp [read, hdrop]

/-- The `read_exactly` loop on a source holding fewer bytes than still
needed: with `fail_silently = false` it throws `unexpectedEOF`; with
`fail_silently = true` it returns the accumulator extended by the entire
unread suffix. -/
theorem read_exactly_go_early (n : Nat) :
    ∀ (fuel : Nat) (st : FileDescriptor) (ret : List Nat),
      st.data.length - st.pos ≤ fuel → st.eof_ = false →
      (st.data.length - st.pos) + ret.length < n →
      read_exactly_go n false st ret = .error .unexpectedEOF
      ∧ (∃ st', read_exactly_go n true st ret = .ok (st', ret ++ st.data.drop st.pos)) := by
  intro fuel
  induction fuel with
  | zero =>
    intro st ret hf he hlt
    have hz : st.data.length ≤ st.pos := by omega
    have hdrop : st.data.drop st.pos = [] := List.drop_eq_nil_of_le hz
    obtain ⟨h1, h2⟩ := read_exactly_go_at_end n st ret hz (by omega)
    refine ⟨h1, ⟨(read st (n - ret.length)).1, ?_⟩⟩
    rw [hdrop]
    simpa using h2
  | succ f ih =>
    intro st ret hf he hlt
    by_cases hz0 : st.data.length - st.pos = 0
    · have hz : st.data.length ≤ st.pos := by omega
      have hdrop : st.data.drop st.pos = [] := List.drop_eq_nil_of_le hz
      obtain ⟨h1, h2⟩ := read_exactly_go_at_end n st ret hz (by omega)
      refine ⟨h1, ⟨(read st (n - ret.length)).1, ?_⟩⟩
      rw [hdrop]
      simpa using h2
    · have hlt' : ret.length < n := by omega
      have hb : 0 < BUFFER_SIZE := by decide
      have hclen : ((st.data.drop st.pos).take (min BUFFER_SIZE (n - ret.length))).length =
          min (min BUFFER_SIZE (n - ret.length)) (st.data.length - st.pos) := by
        simp [List.length_take, List.length_drop]
      have heof1 : (read st (n - ret.length)).1.eof_ = false := by
        simp only [read]
        rw [hclen, if_neg (by omega)]
        exact he
      have hne : ¬ (read st (n - ret.length)).1.eof_ = true := by
        rw [heof1]
        exact Bool.false_ne_true
      have hf' : (read st (n - ret.length)).1.data.length -
          (read st (n - ret.length)).1.pos ≤ f := by
        simp only [read]
        rw [hclen]
        omega
      have he1 : (read st (n - ret.length)).1.eof_ = false := heof1
      have hlt2 : ((read st (n - ret.length)).1.data.length -
            (read st (n - ret.length)).1.pos) +
          (ret ++ (read st (n - ret.length)).2).length < n := by
        simp only [read, List.length_append]
        rw [hclen]
        omega
      have hrejoin : (ret ++ (read st (n - ret.length)).2) ++
          (read st (n - ret.length)).1.data.drop (read st (n - ret.length)).1.pos =
          ret ++ st.data.drop st.pos := by
        simp only [read, List.append_assoc]
        congr 1
        have hdd : st.data.drop (st.pos +
              ((st.data.drop st.pos).take (min BUFFER_SIZE (n - ret.length))).length) =
            (st.data.drop st.pos).drop
              (((st.data.drop st.pos).take (min BUFFER_SIZE (n - ret.length))).length) := by
          rw [List.drop_drop, Nat.add_comm]
        rw [hdd, List.length_take, List.length_drop]
        have happ := take_append_drop_min (st.data.drop st.pos)
          (min BUFFER_SIZE (n - ret.length))
        rw [List.length_drop] at happ
        exact happ
      constructor
      · rw [read_exactly_go, dif_pos hlt', dif_neg hne]
        exact (ih _ _ hf' he1 hlt2).1
      · rw [read_exactly_go, dif_pos hlt', dif_neg hne]
        obtain ⟨st', hok⟩ := (ih _ _ hf' he1 hlt2).2
        refine ⟨st', ?_⟩
        rw [hok, hrejoin]

/-- Whenever the `read_exactly` loop with `fail_silently = false` returns
successfully, the returned byte string has exactly the requested length. -/
theorem read_exactly_go_len (n : Nat) :
    ∀ (fuel : Nat) (st : FileDescriptor) (ret : List Nat)
      (p : FileDescriptor × List Nat),
      st.data.length - st.pos ≤ fuel → ret.length ≤ n →
      read_exactly_go n false st ret = .ok p → p.2.length = n := by
  intro fuel
  induction fuel with
  | zero =>
    intro st ret p hf hle hok
    by_cases hlt : ret.length < n
    · have hz : st.data.length ≤ st.pos := by omega
      rw [(read_exactly_go_at_end n st ret hz hlt).1] at hok
      simp at hok
    · rw [read_exactly_go, dif_neg hlt] at hok
      injection hok with hok
      rw [← hok]
      show ret.length = n
      omega
  | succ f ih =>
    intro st ret p hf hle hok
    by_cases hlt : ret.length < n
    · by_cases heo : (read st (n - ret.length)).1.eof_ = true
      · rw [read_exactly_go, dif_pos hlt, dif_pos heo] at hok
        simp at hok
      · rw [read_exactly_go, dif_pos hlt, dif_neg heo] at hok
        have hc : ¬ ((st.data.drop st.pos).take
            (min BUFFER_SIZE (n - ret.length))).length = 0 := by
          intro h0
          apply heo
          simp only [read]
          rw [if_pos h0]
        have hclen : ((st.data.drop st.pos).take (min BUFFER_SIZE (n - ret.length))).length =
            min (min BUFFER_SIZE (n - ret.length)) (st.data.length - st.pos) := by
          simp [List.length_take, List.length_drop]
        refine ih (read st (n - ret.length)).1 (ret ++ (read st (n - ret.length)).2) p
          ?_ ?_ hok
        · simp only [read]
          rw [hclen]
          rw [hclen] at hc
          omega
        · simp only [read, List.length_append]
          rw [hclen]
          rw [hclen] at hc
          omega
    · rw [read_exactly_go, dif_neg hlt] at hok
      injection hok with hok
      rw [← hok]
      show ret.length = n
      omega

/-- Claim C2: against a source that still holds `k < n` unread bytes (and
whose end-of-file flag is clear), `read_exactly n` with
`fail_silently = false` throws `unexpectedEOF`, and with
`fail_silently = true` it returns exactly those `k` bytes (the whole unread
suffix); and whenever `read_exactly` with `fail_silently = false` returns
successfully, the returned string's length equals the requested length. -/
theorem read_exactly_early_eof_spec (st : FileDescriptor) (n : Nat)
    (heof : st.eof_ = false) (hk : st.data.length - st.pos < n) :
    read_exactly st n false = .error .unexpectedEOF
    ∧ (∃ st', read_exactly st n true = .ok (st', st.data.drop st.pos))
    ∧ (∀ (st2 : FileDescriptor) (m : Nat) (p : FileDescriptor × List Nat),
        read_exactly st2 m false = .ok p → p.2.length = m) := by
  obtain ⟨h1, st', h2⟩ := read_exactly_go_early n (st.data.length - st.pos) st []
    (le_refl _) heof (by simpa using hk)
  refine ⟨h1, ⟨st', by simpa using h2⟩, ?_⟩
  intro st2 m p hok
  exact read_exactly_go_len m (st2.data.length - st2.pos) st2 [] p (le_refl _)
    (Nat.zero_le m) hok

/-- Witness for C2: a source holding 2 bytes, asked for 3. -/
theorem read_exactly_early_eof_spec_witness :
    read_exactly { data := [4, 5], pos := 0 } 3 false = .error .unexpectedEOF
    ∧ (∃ st', read_exactly { data := [4, 5], pos := 0 } 3 true = .ok (st', [4, 5])) :=
  ⟨(read_exactly_early_eof_spec { data := [4, 5], pos := 0 } 3 rfl (by decide)).1,
   (read_exactly_early_eof_spec { data := [4, 5], pos := 0 } 3 rfl (by decide)).2.1⟩

/-! Claim C5: `close()` is idempotent. -/

/-- Claim C5: after a first `close()` on any descriptor, a second `close()`
raises no error, performs no deregistration, does not release the OS handle
again, and leaves the state unchanged: the second call returns the state of
the first call verbatim with an empty event trace. -/
theorem close_idempotent (st : FileDescriptor) :
    close (close st).1 = ((close st).1, []) := by
  unfold close
  by_cases hfd : st.fd_ < 0 <;> simp [hfd]

/-! Claim C6: `filesize()` preserves the descriptor. -/

/-- Claim C6: for every descriptor, `filesize()` returns the size of the
underlying resource and returns the descriptor in exactly the state it was in
before the call — in particular `curr_offset()` is unchanged, as are the
handle, the end-of-file flag, the byte counters and the epoller map. -/
theorem filesize_preserves_offset (st : FileDescriptor) :
    filesize st = .ok (st, st.data.length) := by
  have h1 : ∀ n : Nat, ¬ ((n : Int) < 0) := fun n => by omega
  simp [filesize, curr_offset, seek, SEEK_SET, SEEK_CUR, SEEK_END, h1]

/-! Claim C3: what `detach` actually does. -/

/-- Counterexample to claim C3 as stated: on a descriptor attached to the
live epoller 5, `detach_epoller 5` removes the back-reference entry but emits
no event at all — in particular it does not invoke the epoller's
`deregister`; it only forgets the epoller. -/
theorem detach_does_not_deregister :
    (detach_epoller { fd_ := 3, epollers_ := [(5, true)] } 5).1.epollers_ = []
    ∧ (detach_epoller { fd_ := 3, epollers_ := [(5, true)] } 5).2 = [] := by
  refine ⟨?_, ?_⟩ <;> rfl

/-- Claim C3 (amended): `detach(k)` removes the back-reference entry for `k`
but does not invoke the multiplexer's `deregister`: no deregistration event
is emitted, and the handle is untouched. -/
theorem detach_removes_backref_only (st : FileDescriptor) (k : Int) :
    ((detach_epoller st k).1.epollers_.all fun p => p.1 != k) = true
    ∧ ((detach_epoller st k).2.all fun e => !(isDereg e)) = true
    ∧ (detach_epoller st k).1.fd_ = st.fd_ := by
  unfold detach_epoller
  by_cases hc : (st.epollers_.filter fun p => p.1 != k).length = st.epollers_.length <;>
    simp [hc, isDereg, List.all_eq_true, List.mem_filter]

/-! Claim C4: `close()` deregisters exactly once per still-live epoller,
before releasing the handle; a detached epoller is not deregistered later. -/

/-- If no entry of the epoller map is keyed by `k`, the deregistration trace
of `close` contains no `dereg k`. -/
theorem count_dereg_filterMap_zero (l : List (Int × Bool)) (k : Int)
    (h : ∀ p ∈ l, p.1 ≠ k) :
    ((l.filterMap fun p => if p.2 then some (Event.dereg p.1) else none).count
      (Event.dereg k)) = 0 := by
  induction l with
  | nil => rfl
  | cons p rest ih =>
    have hp := h p (List.mem_cons_self p rest)
    have hrest : ∀ q ∈ rest, q.1 ≠ k := fun q hq => h q (List.mem_cons_of_mem p hq)
    by_cases hlive : p.2 <;>
      simp [List.filterMap_cons, hlive, List.count_cons, ih hrest, hp]

/-- If the epoller map has nodup keys and holds a live entry for `k`, the
deregistration trace of `close` contains `dereg k` exactly once. -/
theorem count_dereg_filterMap_one (l : List (Int × Bool)) (k : Int)
    (hnd : (l.map Prod.fst).Nodup) (hmem : (k, true) ∈ l) :
    ((l.filterMap fun p => if p.2 then some (Event.dereg p.1) else none).count
      (Event.dereg k)) = 1 := by
  induction l with
  | nil => cases hmem
  | cons p rest ih =>
    have hnd' : (rest.map Prod.fst).Nodup := (List.nodup_cons.mp hnd).2
    have hnotin : p.1 ∉ rest.map Prod.fst := (List.nodup_cons.mp hnd).1
    rcases List.mem_cons.mp hmem with heq | hmem'
    · subst heq
      have hz : ∀ q ∈ rest, q.1 ≠ k := by
        intro q hq hqk
        have hq1 : q.1 ∈ rest.map Prod.fst := List.mem_map_of_mem Prod.fst hq
        rw [hqk] at hq1
        exact hnotin hq1
      simp [List.filterMap_cons, List.count_cons,
            count_dereg_filterMap_zero rest k hz]
    · have hpk : p.1 ≠ k := by
        intro hpk
        have hk1 : k ∈ rest.map Prod.fst := List.mem_map_of_mem Prod.fst hmem'
        rw [← hpk] at hk1
        exact hnotin hk1
      by_cases hlive : p.2 <;>
        simp [List.filterMap_cons, hlive, List.count_cons, ih hnd' hmem', hpk]

/-- Claim C4: on a descriptor with a valid handle, `close()` deregisters each
still-live back-referenced multiplexer exactly once, every event before the
handle release is a deregistration (the release is the last event), and the
descriptor is marked invalid; and after `detach(k)`, a later `close` (or
destruction, which calls `close`) emits no deregistration for `k` at all. -/
theorem close_deregisters_live_before_release (st : FileDescriptor) (k : Int)
    (hfd : 0 ≤ st.fd_) (hnd : (st.epollers_.map Prod.fst).Nodup) :
    (close st).1.fd_ = -1
    ∧ ((k, true) ∈ st.epollers_ → (close st).2.count (Event.dereg k) = 1)
    ∧ (∃ ds, (close st).2 = ds ++ [Event.closeHandle st.fd_]
        ∧ ∀ e ∈ ds, isDereg e = true)
    ∧ (close (detach_epoller st k).1).2.count (Event.dereg k) = 0 := by
  have hnlt : ¬ st.fd_ < 0 := by omega
  refine ⟨by simp [close, hnlt], fun hmem => ?_, ?_, ?_⟩
  · simp [close, hnlt, List.count_append,
          count_dereg_filterMap_one st.epollers_ k hnd hmem]
  · refine ⟨st.epollers_.filterMap fun p => if p.2 then some (Event.dereg p.1) else none,
            by simp [close, hnlt], ?_⟩
    intro e he
    rcases List.mem_filterMap.mp he with ⟨p, _, hif⟩
    by_cases hlive : p.2
    · rw [if_pos hlive] at hif
      injection hif with hif
      subst hif
      rfl
    · rw [if_neg hlive] at hif
      cases hif
  · have hdet : (detach_epoller st k).1 =
        { st with epollers_ := st.epollers_.filter fun p => p.1 != k } := by
      unfold detach_epoller
      by_cases hc : (st.epollers_.filter fun p => p.1 != k).length =
          st.epollers_.length <;> simp [hc]
    have hz : ∀ p ∈ st.epollers_.filter (fun p => p.1 != k), p.1 ≠ k := by
      intro p hp
      have := (List.mem_filter.mp hp).2
      simpa using this
    rw [hdet]
    simp [close, hnlt, List.count_append,
          count_dereg_filterMap_zero _ k hz]

/-- Witness for C4: a valid descriptor attached to live epoller 5 and dead
epoller 7; closing deregisters 5 exactly once; after detaching 5, closing
deregisters it zero times. -/
theorem close_deregisters_live_before_release_witness :
    (close ⟨3, false, 0, 0, [(5, true), (7, false)], [], 0⟩).1.fd_ = -1
    ∧ (close ⟨3, false, 0, 0, [(5, true), (7, false)], [], 0⟩).2.count
        (Event.dereg 5) = 1
    ∧ (close (detach_epoller ⟨3, false, 0, 0, [(5, true), (7, false)], [], 0⟩ 5).1).2.count
        (Event.dereg 5) = 0 :=
  ⟨(close_deregisters_live_before_release ⟨3, false, 0, 0, [(5, true), (7, false)], [], 0⟩
      5 (by decide) (by decide)).1,
   (close_deregisters_live_before_release ⟨3, false, 0, 0, [(5, true), (7, false)], [], 0⟩
      5 (by decide) (by decide)).2.1 (by decide),
   (close_deregisters_live_before_release ⟨3, false, 0, 0, [(5, true), (7, false)], [], 0⟩
      5 (by decide) (by decide)).2.2.2⟩

/-! Claim C10: `read(0)`. -/

/-- Claim C10: `read 0` issues an OS read of `min BUFFER_SIZE 0 = 0` bytes,
which returns zero bytes, so the end-of-file flag is set and the empty string
is returned — even when the stream still has unread bytes (`pos` strictly
before the end), and without consuming anything. -/
theorem read_zero_limit_sets_eof (st : FileDescriptor)
    (h : st.pos < st.data.length) :
    (read st 0).2 = [] ∧ (read st 0).1.eof_ = true ∧ (read st 0).1.pos = st.pos := by
  simp [read]

/-- Witness for C10: a concrete stream holding an unread byte. -/
theorem read_zero_limit_sets_eof_witness :
    (read { data := [42], pos := 0 } 0).2 = []
    ∧ (read { data := [42], pos := 0 } 0).1.eof_ = true
    ∧ (read { data := [42], pos := 0 } 0).1.pos = 0 :=
  read_zero_limit_sets_eof { data := [42], pos := 0 } (by decide)

/-! Claims C7 and C8: the orchestrator's worker invocations. -/

/-- `mediaCallsOf` distributes over trace concatenation. -/
theorem mediaCallsOf_append (l1 l2 : List Spawn) :
    mediaCallsOf (l1 ++ l2) = mediaCallsOf l1 ++ mediaCallsOf l2 := by
  induction l1 with
  | nil => rfl
  | cons s rest ih => cases s <;> simp [mediaCallsOf, ih]

/-- A list of log-reporter spawns contributes no media calls. -/
theorem mediaCallsOf_map_logReporter (p : String) (f : String → List Arg)
    (l : List String) :
    mediaCallsOf (l.map fun s => Spawn.logReporter p (f s)) = [] := by
  induction l with
  | nil => rfl
  | cons s rest ih => simp [mediaCallsOf, ih]

/-- The log-reporter spawns of one server contribute no media calls. -/
theorem mediaCallsOf_logReporterSpawns (cfg : OrchConfig) (sid : Nat) :
    mediaCallsOf (logReporterSpawns cfg sid) = [] := by
  unfold logReporterSpawns
  by_cases hl : cfg.enable_logging
  · rw [if_pos hl]
    exact mediaCallsOf_map_logReporter _ _ _
  · rw [if_neg hl]
    rfl

/-- Characterization of the inner server loop: its media calls are exactly
one call per server id `sid + 1, …, sid + n`, each carrying the loop's
experiment id, and the counter ends at `sid + n`. -/
theorem serversLoop_media (cfg : OrchConfig) (eid : Int) :
    ∀ (n sid : Nat),
      mediaCallsOf (serversLoop cfg eid sid n).2 =
        (List.range' (sid + 1) n).map (fun s =>
          (cfg.ws_media_server,
           [Arg.str cfg.ws_media_server, Arg.str cfg.yaml_config,
            Arg.int (Int.ofNat s), Arg.int eid]))
      ∧ (serversLoop cfg eid sid n).1 = sid + n := by
  intro n
  induction n with
  | zero => intro sid; exact ⟨rfl, rfl⟩
  | succ m ih =>
    intro sid
    obtain ⟨ih1, ih2⟩ := ih (sid + 1)
    constructor
    · show mediaCallsOf (Spawn.media cfg.ws_media_server _ ::
        (logReporterSpawns cfg (sid + 1) ++ (serversLoop cfg eid (sid + 1) m).2)) = _
      rw [List.range'_succ (sid + 1) m 1]
      simp only [mediaCallsOf, mediaCallsOf_append,
                 mediaCallsOf_logReporterSpawns, List.nil_append, ih1, List.map_cons]
    · show (serversLoop cfg eid (sid + 1) m).1 = sid + (m + 1)
      omega

/-- Characterization of the outer experiment loop: the final counter is the
initial one plus the total server count; the media-server ids are exactly
`sid + 1, …, sid + total`; and every media call has the four-argument shape
with the experiment id retrieved for one of the experiments. -/
theorem exptsLoop_media (cfg : OrchConfig) (retrieve : String → Int)
    (jsonOf : String → String) :
    ∀ (expts : List Experiment) (sid : Nat),
      (exptsLoop cfg retrieve jsonOf sid expts).1 = sid + totalServers expts
      ∧ mediaServerIds (exptsLoop cfg retrieve jsonOf sid expts).2 =
          (List.range' (sid + 1) (totalServers expts)).map Int.ofNat
      ∧ ∀ c ∈ mediaCallsOf (exptsLoop cfg retrieve jsonOf sid expts).2,
          ∃ (s : Nat) (e : Experiment), e ∈ expts ∧ sid + 1 ≤ s ∧
            c = (cfg.ws_media_server,
                 [Arg.str cfg.ws_media_server, Arg.str cfg.yaml_config,
                  Arg.int (Int.ofNat s), Arg.int (retrieve (jsonOf e.fingerprint))]) := by
  intro expts
  induction expts with
  | nil =>
    intro sid
    refine ⟨by simp [exptsLoop, totalServers], by simp [exptsLoop, mediaServerIds,
      mediaCallsOf, totalServers], ?_⟩
    intro c hc
    simp [exptsLoop, mediaCallsOf] at hc
  | cons e es ih =>
    intro sid
    obtain ⟨sl1, sl2⟩ := serversLoop_media cfg (retrieve (jsonOf e.fingerprint))
      e.num_servers sid
    obtain ⟨ih1, ih2, ih3⟩ := ih (sid + e.num_servers)
    have htot : totalServers (e :: es) = e.num_servers + totalServers es := by
      simp [totalServers]
    have hsplit : (exptsLoop cfg retrieve jsonOf sid (e :: es)).2 =
        (serversLoop cfg (retrieve (jsonOf e.fingerprint)) sid e.num_servers).2 ++
        (exptsLoop cfg retrieve jsonOf
          (serversLoop cfg (retrieve (jsonOf e.fingerprint)) sid e.num_servers).1 es).2 := rfl
    have hfst : (exptsLoop cfg retrieve jsonOf sid (e :: es)).1 =
        (exptsLoop cfg retrieve jsonOf
          (serversLoop cfg (retrieve (jsonOf e.fingerprint)) sid e.num_servers).1 es).1 := rfl
    refine ⟨?_, ?_, ?_⟩
    · rw [hfst, sl2]
      omega
    · unfold mediaServerIds at ih2 ⊢
      rw [hsplit, mediaCallsOf_append, List.map_append, sl2, ih2, sl1, List.map_map]
      have hcomp : ((fun c => argIdAt c.2 2) ∘ (fun s =>
          ((cfg.ws_media_server,
            [Arg.str cfg.ws_media_server, Arg.str cfg.yaml_config,
             Arg.int (Int.ofNat s),
             Arg.int (retrieve (jsonOf e.fingerprint))]) : String × List Arg))) =
          Int.ofNat := by
        funext s
        rfl
      rw [hcomp, htot, ← List.map_append]
      congr 1
      have happ := List.range'_append (sid + 1) e.num_servers (totalServers es) 1
      simp only [Nat.one_mul] at happ
      rw [show sid + 1 + e.num_servers = sid + e.num_servers + 1 by omega] at happ
      rw [happ]
      congr 1
      omega
    · intro c hc
      rw [hsplit, mediaCallsOf_append] at hc
      rcases List.mem_append.mp hc with hc1 | hc2
      · rw [sl1] at hc1
        rcases List.mem_map.mp hc1 with ⟨s, hs, rfl⟩
        have hsb := (List.mem_range'_1).mp hs
        exact ⟨s, e, List.mem_cons_self e es, by omega, rfl⟩
      · rw [sl2] at hc2
        rcases ih3 c hc2 with ⟨s, e', he', hs, hshape⟩
        exact ⟨s, e', List.mem_cons_of_mem e he', by omega, hshape⟩

/-- Counterexample to claim C7 as stated: when the experiment-identity lookup
fails (here: the database connection throws, so `retrieve_expt_id` returns
`-1`), the orchestrator still spawns the media-server worker, passing `-1` as
the experiment id — which is not a positive integer. -/
theorem media_server_negative_expt_id :
    mediaCallsOf (run_servers
        ⟨"ws_media_server", "log_reporter", "settings.yml", "logdir", false⟩
        (fun _ => retrieve_expt_id ⟨true, false, true, true, none, none, true⟩)
        (fun s => s) [⟨"fp", 1⟩]) =
      [("ws_media_server",
        [Arg.str "ws_media_server", Arg.str "settings.yml",
         Arg.int 1, Arg.int (-1)])]
    ∧ ¬ (0 < (-1 : Int)) := by
  exact ⟨rfl, by decide⟩

/-- Claim C7 (amended): every media-server worker spawned by the orchestrator
is invoked with exactly four arguments — its own path, the configuration
path, a positive server id unique within the run, and the experiment id
retrieved for its experiment; the experiment id is positive whenever the
identity lookup returns positive ids, but is `-1` (not positive) when the
lookup fails. -/
theorem media_server_invocation_shape (cfg : OrchConfig) (retrieve : String → Int)
    (jsonOf : String → String) (expts : List Experiment) :
    (∀ c ∈ mediaCallsOf (run_servers cfg retrieve jsonOf expts),
       ∃ (s : Nat) (e : Experiment), e ∈ expts ∧ 1 ≤ s ∧
         c = (cfg.ws_media_server,
              [Arg.str cfg.ws_media_server, Arg.str cfg.yaml_config,
               Arg.int (Int.ofNat s), Arg.int (retrieve (jsonOf e.fingerprint))]))
    ∧ (mediaServerIds (run_servers cfg retrieve jsonOf expts)).Nodup
    ∧ ((∀ e ∈ expts, 0 < retrieve (jsonOf e.fingerprint)) →
        ∀ c ∈ mediaCallsOf (run_servers cfg retrieve jsonOf expts),
          0 < argIdAt c.2 3) := by
  obtain ⟨_, h2, h3⟩ := exptsLoop_media cfg retrieve jsonOf expts 0
  refine ⟨?_, ?_, ?_⟩
  · intro c hc
    rcases h3 c hc with ⟨s, e, he, hs, hshape⟩
    exact ⟨s, e, he, by omega, hshape⟩
  · show (mediaServerIds (exptsLoop cfg retrieve jsonOf 0 expts).2).Nodup
    rw [h2]
    exact (List.nodup_range' 1 (totalServers expts)).map
      (fun a b h => Int.ofNat.inj h)
  · intro hpos c hc
    rcases h3 c hc with ⟨s, e, he, _, rfl⟩
    show 0 < argIdAt [Arg.str cfg.ws_media_server, Arg.str cfg.yaml_config,
      Arg.int (Int.ofNat s), Arg.int (retrieve (jsonOf e.fingerprint))] 3
    show 0 < retrieve (jsonOf e.fingerprint)
    exact hpos e he

/-- Witness for C7 (amended): a run with one experiment of one server and a
lookup returning 7: the server ids are nodup and the spawned media server's
experiment-id argument is positive. -/
theorem media_server_invocation_shape_witness :
    (mediaServerIds (run_servers ⟨"ws", "lr", "y", "d", false⟩
        (fun _ => 7) (fun s => s) [⟨"f", 1⟩])).Nodup
    ∧ 0 < argIdAt [Arg.str "ws", Arg.str "y", Arg.int 1, Arg.int 7] 3 :=
  ⟨(media_server_invocation_shape ⟨"ws", "lr", "y", "d", false⟩
      (fun _ => 7) (fun s => s) [⟨"f", 1⟩]).2.1,
   (media_server_invocation_shape ⟨"ws", "lr", "y", "d", false⟩
      (fun _ => 7) (fun s => s) [⟨"f", 1⟩]).2.2
     (by intro e he; exact Int.sign_eq_one_iff_pos.mp rfl)
     ("ws", [Arg.str "ws", Arg.str "y", Arg.int 1, Arg.int 7]) (by decide)⟩

/-- Claim C8: a configuration with exactly one experiment asking for two
workers produces exactly two tracked media-server workers, with distinct,
increasing server ids 1 and 2 and the same experiment id in both
invocations; with logging disabled they are the only tracked children at
all. -/
theorem one_experiment_two_workers (cfg : OrchConfig) (retrieve : String → Int)
    (jsonOf : String → String) (fp : String) :
    mediaCallsOf (run_servers cfg retrieve jsonOf [⟨fp, 2⟩]) =
      [(cfg.ws_media_server,
        [Arg.str cfg.ws_media_server, Arg.str cfg.yaml_config,
         Arg.int 1, Arg.int (retrieve (jsonOf fp))]),
       (cfg.ws_media_server,
        [Arg.str cfg.ws_media_server, Arg.str cfg.yaml_config,
         Arg.int 2, Arg.int (retrieve (jsonOf fp))])]
    ∧ run_servers { cfg with enable_logging := false } retrieve jsonOf [⟨fp, 2⟩] =
      [Spawn.media cfg.ws_media_server
         [Arg.str cfg.ws_media_server, Arg.str cfg.yaml_config,
          Arg.int 1, Arg.int (retrieve (jsonOf fp))],
       Spawn.media cfg.ws_media_server
         [Arg.str cfg.ws_media_server, Arg.str cfg.yaml_config,
          Arg.int 2, Arg.int (retrieve (jsonOf fp))]] := by
  constructor
  · show mediaCallsOf ((serversLoop cfg (retrieve (jsonOf fp)) 0 2).2 ++
      (exptsLoop cfg retrieve jsonOf _ []).2) = _
    rw [mediaCallsOf_append]
    rw [(serversLoop_media cfg (retrieve (jsonOf fp)) 2 0).1]
    rfl
  · show (Spawn.media cfg.ws_media_server _ ::
      (logReporterSpawns { cfg with enable_logging := false } 1 ++ _)) = _
    rfl

/-! Claim C9: `retrieve_expt_id` isolates failures. -/

/-- Claim C9: `retrieve_expt_id` never propagates an exception: if the hash
computation fails, or the database connection fails, or the select statement
throws, or (the select having missed) the insert statement throws, the
exception is caught and `-1` is returned; and a non-negative identifier is
returned only when a row was found by the select or inserted by the insert. -/
theorem retrieve_expt_id_isolates_failures (o : DBOracle) :
    (o.hashOk = false → retrieve_expt_id o = -1)
    ∧ (o.connOk = false → retrieve_expt_id o = -1)
    ∧ (o.selectRes = none → retrieve_expt_id o = -1)
    ∧ (∀ r, o.selectRes = some r → rowsHit r = none → o.insertRes = none →
        retrieve_expt_id o = -1)
    ∧ (0 ≤ retrieve_expt_id o → selectFound o ∨ insertReturned o) := by
  obtain ⟨h, c, cr, pr, s, ins, ic⟩ := o
  refine ⟨fun h1 => ?_, fun h2 => ?_, fun h3 => ?_, fun r hs hr hins => ?_, ?_⟩
  · subst h1; simp [retrieve_expt_id]
  · subst h2; cases h <;> simp [retrieve_expt_id]
  · subst h3
    cases h <;> cases c <;> cases cr <;> cases pr <;> simp [retrieve_expt_id]
  · subst hs; subst hins
    cases h <;> cases c <;> cases cr <;> cases pr <;> simp [retrieve_expt_id, hr]
  · intro hge
    cases h <;> cases c <;> cases cr <;> cases pr <;>
      try (simp [retrieve_expt_id] at hge)
    cases s with
    | none => simp [retrieve_expt_id] at hge
    | some r =>
      rcases hr : rowsHit r with _ | v
      · cases ins with
        | none => simp [retrieve_expt_id, hr] at hge
        | some r2 =>
          cases ic with
          | false => simp [retrieve_expt_id, hr] at hge
          | true =>
            rcases hr2 : rowsHit r2 with _ | v2
            · simp [retrieve_expt_id, hr, hr2] at hge
            · exact Or.inr ⟨rfl, rfl, rfl, rfl, r, r2, v2, rfl, hr, rfl, rfl, hr2⟩
      · exact Or.inl ⟨rfl, rfl, rfl, rfl, r, v, rfl, hr⟩

/-- Witness for C9: a run whose database connection fails returns `-1`, and a
run that finds an existing row returns its non-negative id only because a row
was found. -/
theorem retrieve_expt_id_isolates_failures_witness :
    retrieve_expt_id ⟨true, false, true, true, some [[4]], some [[4]], true⟩ = -1
    ∧ (selectFound ⟨true, true, true, true, some [[4]], none, true⟩
        ∨ insertReturned ⟨true, true, true, true, some [[4]], none, true⟩) :=
  ⟨(retrieve_expt_id_isolates_failures
      ⟨true, false, true, true, some [[4]], some [[4]], true⟩).2.1 rfl,
   (retrieve_expt_id_isolates_failures
      ⟨true, true, true, true, some [[4]], none, true⟩).2.2.2.2 (by decide)⟩

end Puffer
